import Mathlib

/-!
Verification development for the bulk Gmail sender
(`Bulk_Mail_Sender_Gmail_V1.2.py`, with `Bulk_Mail_Sender_Gmail.py` the
earlier variant without checkpointing).

The dispatch engine (`EmailSenderWorker.run`) and its leaf helpers
(`load_checkpoint`, `save_checkpoint`, `load_html_content`, the network
probe / retry sub-loop) are shallowly embedded below.  External effects
are supplied by oracles in an `Env` record:

* the Excel read result, the per-row template-file read results, the
  per-attempt SMTP transport outcomes together with the network-probe
  answer taken right after each failure (`check_network()` in the source),
  the observed value of the externally mutated `_running` flag at the top
  of each iteration, whether the checkpoint file can be written, and the
  failure-report write result;
* the checkpoint file is a `CheckFile` value distinguishing: absent,
  present-but-`open()`-raises (in the source the `open` call sits
  *outside* the `try`), present-but-`f.read()`-raises (inside the `try`),
  and present with string contents;
* the unbounded SMTP retry loop is modelled with fuel; running out of
  fuel yields the distinguished `hung` outcome modelling the loop that
  never terminates while the probe keeps reporting the network down;
* timing (`time.sleep`, the pause busy-wait) is not modelled except that
  `time.sleep(delay)` with a negative delay raises in Python, so the
  inter-send sleep checks the sign of `delay`; the pause wait changes no
  engine state and is elided;
* Python float arithmetic in the progress computation
  `int(((i + 1) / total) * 100)` is idealised as exact rational
  arithmetic, i.e. as the natural-number floor `100 * (i + 1) / total`;
* `str(int)` / `int(str)` are modelled by an explicit decimal printer and
  parser (`natStr` / `pyInt?`); the parser covers optional sign, leading
  and trailing whitespace and decimal digits (Python's underscore
  grouping and non-ASCII digits are not modelled).
-/

/-! ### Decimal printing and parsing (`str(i)` and `int(s.strip())`) -/

/-- The character for a single decimal digit (`d < 10`). -/
def digitChar : Nat → Char
  | 0 => '0' | 1 => '1' | 2 => '2' | 3 => '3' | 4 => '4'
  | 5 => '5' | 6 => '6' | 7 => '7' | 8 => '8' | _ => '9'

/-- Decimal digits of `n`, most significant first, prepended to `acc`. -/
def natChars (n : Nat) (acc : List Char) : List Char :=
  if n < 10 then digitChar n :: acc
  else natChars (n / 10) (digitChar (n % 10) :: acc)
termination_by n
decreasing_by exact Nat.div_lt_self (by omega) (by omega)

/-- Decimal representation of a natural number, as written by `str(n)`. -/
def natStr (n : Nat) : String := ⟨natChars n []⟩

/-- Decimal representation of an integer, as written by `str(i)`. -/
def intStr (i : Int) : String :=
  if i < 0 then "-" ++ natStr i.natAbs else natStr i.natAbs

/-- The value of an ASCII decimal digit character, if it is one. -/
def digit? (c : Char) : Option Nat :=
  if 48 ≤ c.toNat ∧ c.toNat ≤ 57 then some (c.toNat - 48) else none

/-- Left-to-right accumulation of decimal digits; fails on a non-digit. -/
def parseNatAcc : Nat → List Char → Option Nat
  | a, [] => some a
  | a, c :: cs =>
    match digit? c with
    | some d => parseNatAcc (a * 10 + d) cs
    | none => none

/-- Parse a nonempty all-digit character list. -/
def parseNat? : List Char → Option Nat
  | [] => none
  | cs => parseNatAcc 0 cs

/-- Python `str.strip()` whitespace (the characters relevant here). -/
def isPySpace (c : Char) : Bool :=
  c == ' ' || c == '\t' || c == '\n' || c == '\r' ||
  c.toNat == 11 || c.toNat == 12

/-- Python `str.strip()`: drop whitespace at both ends. -/
def pyStrip (cs : List Char) : List Char :=
  ((cs.dropWhile isPySpace).reverse.dropWhile isPySpace).reverse

/-- Python `int(s.strip())`, `none` when the conversion raises
`ValueError`: optional single sign followed by at least one decimal
digit. -/
def pyInt? (s : String) : Option Int :=
  match pyStrip s.toList with
  | [] => none
  | c :: rest =>
    if c = '+' then (parseNat? rest).map (fun n => (n : Int))
    else if c = '-' then (parseNat? rest).map (fun n => -(n : Int))
    else (parseNat? (c :: rest)).map (fun n => (n : Int))

/-! ### Checkpoint store (`save_checkpoint` / `load_checkpoint`) -/

/-- State of the checkpoint file `progress_checkpoint.txt` as seen by
`load_checkpoint`.  `unopenable` models an existing file for which
`open(CHECKPOINT_FILE, "r")` raises — in the source that call sits
outside the `try`, unlike `f.read()` whose failure (`readFails`) is
caught by the bare `except`. -/
inductive CheckFile
  | absent
  | unopenable
  | readFails
  | content (s : String)

deriving Repr, DecidableEq

/-- `load_checkpoint()`: `0` if the file does not exist; if it exists,
`int(f.read().strip())` with any failure of the read or of the
conversion caught and turned into `0`; a failure of `open` itself
propagates (`Except.error`). -/
def load_checkpoint : CheckFile → Except String Int
  | .absent => .ok 0
  | .unopenable => .error "could not open checkpoint file"
  | .readFails => .ok 0
  | .content s => .ok ((pyInt? s).getD 0)

/-! ### Body rendering (`load_html_content`) -/

/-- Python substring test `needle in hay`. -/
def pyIn (needle hay : String) : Bool :=
  decide (needle.toList <:+: hay.toList)

/-- `load_html_content(file_path, salutation, signature)`.  The file read
result is passed in (`Except.error e` models the `open`/`read` raising
with message `str(e)`).  If the content mentions either placeholder both
are substituted, otherwise the fixed `<br>` signature block is appended;
a read error yields the literal error text. -/
def load_html_content (readResult : Except String String)
    (salutation signatureText : String) : String :=
  match readResult with
  | .ok content =>
    if pyIn "\x7bsal\x7d" content || pyIn "\x7bsignature\x7d" content then
      (content.replace "\x7bsal\x7d" salutation).replace
        "\x7bsignature\x7d" signatureText
    else
      content ++ "<br><br>Thanks & Regards,<br>" ++ signatureText
  | .error e => "Error loading HTML file: " ++ e

/-! ### Data model of the engine -/

/-- One row of the contact workbook (the seven required columns, in the
order of `required_columns`). -/
structure Record where
  from_email : String
  password : String
  sal : String
  signatureCol : String
  to_email : String
  subject : String
  html_file : String

deriving Repr, DecidableEq

/-- The result of `pd.read_excel`: column names plus rows (a row's index
in `rows` is the `iterrows` index `i`). -/
structure DataFrame where
  columns : List String
  rows : List Record

deriving Repr, DecidableEq

/-- One element of `self.failed_emails`. -/
structure FailureEntry where
  from_email : String
  to_email : String
  subject : String
  error_message : String

deriving Repr, DecidableEq

/-- Signals emitted by the worker (`log_signal`, `total_contacts_signal`,
`emails_sent_signal`, `progress_signal`, `finished_signal`). -/
inductive Event
  | log (s : String)
  | totalContacts (n : Nat)
  | emailsSent (n : Nat)
  | progress (p : Nat)
  | finished

deriving Repr, DecidableEq

/-- Outcome of one transport attempt.  On `failure`, `networkUp` is the
value `check_network()` returns right after the exception; `networkUp =
false` stands for "the probe reported unreachable and the 5-second
re-probe wait ran until reachability returned". -/
inductive AttemptResult
  | success
  | failure (msg : String) (networkUp : Bool)

deriving Repr, DecidableEq

/-- How the send-retry sub-loop left one record. -/
inductive SendOutcome
  | sent
  | failed (e : FailureEntry)
  | hung

deriving Repr, DecidableEq

/-- `hung` outcomes do not count as finalized records. -/
def isHung : SendOutcome → Bool
  | .hung => true
  | _ => false

/-- Result of the send-retry sub-loop: the outcome, the updated
`sent_count`, and the events emitted inside the sub-loop. -/
structure SendRes where
  outcome : SendOutcome
  sent : Nat
  events : List Event

deriving Repr, DecidableEq

/-- The `while not email_sent` sub-loop for one record.  `att t` is the
transport/probe oracle for the `t`-th attempt on this record; `fuel`
bounds the number of attempts modelled, and exhausting it yields `hung`
(the source loops forever while the probe stays down). -/
def sendLoop (att : Nat → AttemptResult) (r : Record) (sent0 : Nat) :
    Nat → Nat → SendRes
  | 0, _ => ⟨.hung, sent0, []⟩
  | fuel + 1, t =>
    match att t with
    | .success =>
      ⟨.sent, sent0 + 1,
        [.log "Email sent successfully!", .emailsSent (sent0 + 1)]⟩
    | .failure msg netUp =>
      if netUp then
        ⟨.failed ⟨r.from_email, r.to_email, r.subject, msg⟩, sent0,
          [.log ("Failed to send email to " ++ r.to_email ++ ": " ++ msg)]⟩
      else
        let rest := sendLoop att r sent0 fuel (t + 1)
        ⟨rest.outcome, rest.sent,
          .log "Network disconnected. Pausing email sending process. Waiting for network to be restored..." ::
          .log "Network restored. Resuming email sending process." ::
          rest.events⟩

/-- What happened at one non-skipped row: its index, the body that was
composed for it, and how the send sub-loop ended. -/
structure RowTrace where
  idx : Nat
  body : String
  outcome : SendOutcome

deriving Repr, DecidableEq

/-- The worker state threaded through the row loop. -/
structure LoopSt where
  sent : Nat
  failures : List FailureEntry
  cp : CheckFile
  events : List Event
  cpWrites : List Nat
  trace : List RowTrace

deriving Repr, DecidableEq

/-- How the row loop ended. -/
inductive EndKind
  | normal
  | cancelled
  | hungAt (k : Nat)
  | raised (msg : String)

deriving Repr, DecidableEq

/-- Row-loop result. -/
structure LoopOut where
  st : LoopSt
  kind : EndKind

deriving Repr, DecidableEq

/-- The run's external collaborators and control signals. -/
structure Env where
  /-- Result of `pd.read_excel(self.excel_file)`. -/
  excel : Except String DataFrame
  /-- State of the checkpoint file when the run starts. -/
  cp0 : CheckFile
  /-- Whether `save_checkpoint` succeeds (`false`: `open(..., "w")` or
  the write raises; the source wraps the call in no `try`). -/
  cpWritable : Bool
  /-- Result of reading row `i`'s `html_file` during this run. -/
  template : Nat → Except String String
  /-- Transport/probe oracle: row index → attempt number → outcome. -/
  attempt : Nat → Nat → AttemptResult
  /-- Observed value of `not self._running` at the top of iteration `i`
  (the flag is externally mutated; the class itself never clears it). -/
  cancelledAt : Nat → Bool
  /-- Result of `df_failed.to_excel(...)` for the failure report. -/
  report : Except String Unit
  /-- Attempt budget per record for the unbounded retry loop. -/
  fuel : Nat
  /-- `self.delay`, exact; `time.sleep` raises when it is negative. -/
  delay : Rat
  /-- The text `str(self.delay)` shown in the waiting log line (float
  printing is not modelled). -/
  delayStr : String

/-- `self.failed_emails.append(...)` happens exactly on a non-network
terminal failure. -/
def recordFailure : SendOutcome → List FailureEntry
  | .failed e => [e]
  | _ => []

/-- The log line announcing a row. -/
def sendingLog (i : Nat) (r : Record) : Event :=
  .log ("Sending email to " ++ r.to_email ++ " from " ++ r.signatureCol ++
    " (row " ++ natStr i ++ ")...")

/-- After the sub-loop finalizes a record: `save_checkpoint(i + 1)` (no
`try` around it — a write failure raises), then the progress emit
`int(((i + 1) / total) * 100)`, the waiting log, and `time.sleep(delay)`
(raises when `delay < 0`). -/
def finalizeRow (env : Env) (total i : Nat) (st : LoopSt) :
    LoopSt × Option EndKind :=
  if env.cpWritable then
    let st2 : LoopSt :=
      { st with
        cp := .content (natStr (i + 1))
        cpWrites := st.cpWrites ++ [i + 1]
        events := st.events ++
          [Event.progress (100 * (i + 1) / total),
           Event.log ("Waiting for " ++ env.delayStr ++
             " seconds before next email...\n")] }
    if env.delay < 0 then (st2, some (.raised "sleep length must be non-negative"))
    else (st2, none)
  else (st, some (.raised "could not write checkpoint file"))

/-- Body of the `for i, row in df.iterrows()` loop for a non-skipped,
non-cancelled row: render the body, log, run the send sub-loop, record
the failure if any, then finalize. -/
def processRow (env : Env) (total i : Nat) (r : Record) (st : LoopSt) :
    LoopSt × Option EndKind :=
  let sres := sendLoop (env.attempt i) r st.sent env.fuel 0
  let st1 : LoopSt :=
    { st with
      sent := sres.sent
      failures := st.failures ++ recordFailure sres.outcome
      events := st.events ++ sendingLog i r :: sres.events
      trace := st.trace ++
        [⟨i, load_html_content (env.template i) r.sal r.signatureCol,
          sres.outcome⟩] }
  match sres.outcome with
  | .hung => (st1, some (.hungAt i))
  | _ => finalizeRow env total i st1

/-- The row loop: skip rows below the checkpoint, then check the
`_running` flag, then process. -/
def rowsLoop (env : Env) (total : Nat) (start : Int) :
    Nat → List Record → LoopSt → LoopOut
  | _, [], st => ⟨st, .normal⟩
  | i, r :: rest, st =>
    if (i : Int) < start then rowsLoop env total start (i + 1) rest st
    else if env.cancelledAt i then ⟨st, .cancelled⟩
    else
      match processRow env total i r st with
      | (st1, none) => rowsLoop env total start (i + 1) rest st1
      | (st1, some k) => ⟨st1, k⟩

/-- How the whole run ended.  `finishedRun c` means `finished_signal` was
emitted, with `c = true` when the loop was left by the cancellation
`break`; `raised` means an exception escaped `run` (no `finished`);
`hungAt k` means the retry sub-loop for record `k` never terminated. -/
inductive RunTerm
  | finishedRun (cancelled : Bool)
  | hungAt (k : Nat)
  | raised (msg : String)

deriving Repr, DecidableEq

/-- Observable result of a run. -/
structure RunResult where
  events : List Event
  sent : Nat
  failures : List FailureEntry
  trace : List RowTrace
  cpWrites : List Nat
  cpFinal : CheckFile
  term : RunTerm

deriving Repr, DecidableEq

/-- The code after the loop: write the failure report if there were
failures (its own `try` catches a write error), then the final log and
`finished_signal`. -/
def finish (env : Env) (st : LoopSt) (cancelled : Bool) : RunResult :=
  let evR : List Event :=
    if st.failures.isEmpty then []
    else
      match env.report with
      | .ok _ => [.log "Failure report saved to failed_emails_report.xlsx"]
      | .error e => [.log ("Error saving failure report: " ++ e)]
  ⟨st.events ++ evR ++ [.log "Finished sending emails.\n", .finished],
    st.sent, st.failures, st.trace, st.cpWrites, st.cp,
    .finishedRun cancelled⟩

/-- Package a row-loop result as a run result. -/
def wrapOut (env : Env) (out : LoopOut) : RunResult :=
  match out.kind with
  | .normal => finish env out.st false
  | .cancelled => finish env out.st true
  | .hungAt k =>
    ⟨out.st.events, out.st.sent, out.st.failures, out.st.trace,
      out.st.cpWrites, out.st.cp, .hungAt k⟩
  | .raised m =>
    ⟨out.st.events, out.st.sent, out.st.failures, out.st.trace,
      out.st.cpWrites, out.st.cp, .raised m⟩

/-- State just before the row loop: `total_contacts_signal` emitted,
checkpoint loaded, resuming notice logged. -/
def initSt (env : Env) (total : Nat) (c : Int) : LoopSt :=
  ⟨0, [], env.cp0,
    [Event.totalContacts total,
     Event.log ("Resuming from row " ++ intStr c)], [], []⟩

/-- The required-column list checked up front. -/
def required_columns : List String :=
  ["from_email", "password", "sal", "signature", "to_email", "subject",
   "html_file"]

/-- `EmailSenderWorker.run` for the checkpointing variant: read the
workbook, check the schema, emit the total, load the checkpoint (an
`open` failure there escapes), log the resuming notice, run the row
loop, then report failures and finish. -/
def run (env : Env) : RunResult :=
  match env.excel with
  | .error e =>
    ⟨[.log ("Error reading Excel file: " ++ e), .finished],
      0, [], [], [], env.cp0, .finishedRun false⟩
  | .ok df =>
    match required_columns.find? (fun c => !(df.columns.contains c)) with
    | some c =>
      ⟨[.log ("Missing required column: " ++ c), .finished],
        0, [], [], [], env.cp0, .finishedRun false⟩
    | none =>
      let total := df.rows.length
      match load_checkpoint env.cp0 with
      | .error m =>
        ⟨[Event.totalContacts total], 0, [], [], [], env.cp0, .raised m⟩
      | .ok c =>
        wrapOut env (rowsLoop env total c 0 df.rows (initSt env total c))

/-- `sent_count + len(failed_emails)` of a loop state. -/
def score (st : LoopSt) : Nat := st.sent + st.failures.length

/-- Number of finalized (non-`hung`) rows in a trace. -/
def countFinal (tr : List RowTrace) : Nat :=
  (tr.filter (fun t => !isHung t.outcome)).length

/-- Record `k` was finalized (sent, or terminally failed and recorded)
in the given trace. -/
def FinalizedAt (tr : List RowTrace) (k : Nat) : Prop :=
  ∃ t ∈ tr, t.idx = k ∧ t.outcome ≠ .hung

instance (tr : List RowTrace) (k : Nat) : Decidable (FinalizedAt tr k) := by
  unfold FinalizedAt; infer_instance

/-- Companion of `natChars` on values: push the digits of `n` onto `a`. -/
def pushNum (a n : Nat) : Nat :=
  if n < 10 then a * 10 + n
  else pushNum a (n / 10) * 10 + n % 10
termination_by n
decreasing_by exact Nat.div_lt_self (by omega) (by omega)

/-! ### Checkpoint write folding -/

/-- Effect of one `save_checkpoint(w)` on the checkpoint file. -/
def cpFold (_ : CheckFile) (w : Nat) : CheckFile := .content (natStr w)

/-! ### One row's processing, decomposed -/

/-- The state after the send sub-loop for row `i`, before
`save_checkpoint` runs. -/
def afterSend (env : Env) (i : Nat) (r : Record) (st : LoopSt) : LoopSt :=
  { st with
    sent := (sendLoop (env.attempt i) r st.sent env.fuel 0).sent
    failures := st.failures ++
      recordFailure (sendLoop (env.attempt i) r st.sent env.fuel 0).outcome
    events := st.events ++ sendingLog i r ::
      (sendLoop (env.attempt i) r st.sent env.fuel 0).events
    trace := st.trace ++
      [⟨i, load_html_content (env.template i) r.sal r.signatureCol,
        (sendLoop (env.attempt i) r st.sent env.fuel 0).outcome⟩] }

/-! ### The row-loop invariant -/

/-- Everything the row loop guarantees, relative to its start state:
`dt`, `de`, `df`, `dw` are the new trace entries, events, failure
entries and checkpoint writes. -/
structure LoopFacts (env : Env) (total : Nat) (start : Int) (i : Nat)
    (rows : List Record) (st : LoopSt) (out : LoopOut)
    (dt : List RowTrace) (de : List Event) (df : List FailureEntry)
    (dw : List Nat) : Prop where
  trace_eq : out.st.trace = st.trace ++ dt
  events_eq : out.st.events = st.events ++ de
  failures_eq : out.st.failures = st.failures ++ df
  writes_eq : out.st.cpWrites = st.cpWrites ++ dw
  cp_eq : out.st.cp = dw.foldl cpFold st.cp
  bounds : ∀ t ∈ dt, i ≤ t.idx ∧ t.idx < i + rows.length ∧
    start ≤ (t.idx : Int) ∧ env.cancelledAt t.idx = false
  len_le : dt.length ≤ rows.length
  score_eq : score out.st = score st + countFinal dt
  full_iff : countFinal dt = rows.length ↔
    ((∀ k, i ≤ k → k < i + rows.length → FinalizedAt (st.trace ++ dt) k) ∧
      out.kind ≠ .cancelled)
  rowData : ∀ t ∈ dt, ∃ r, rows[t.idx - i]? = some r ∧
    t.body = load_html_content (env.template t.idx) r.sal r.signatureCol ∧
    ∃ s0, t.outcome = (sendLoop (env.attempt t.idx) r s0 env.fuel 0).outcome
  fail_src : ∀ e ∈ df, ∃ t ∈ dt, t.outcome = .failed e
  prog_writes : env.cpWritable = true → ∀ t ∈ dt, t.outcome ≠ .hung →
    Event.progress (100 * (t.idx + 1) / total) ∈ de ∧ (t.idx + 1) ∈ dw
  writes_src : ∀ w ∈ dw, i < w ∧ ∃ t ∈ dt, t.outcome ≠ .hung ∧ w = t.idx + 1
  writes_sorted : List.Pairwise (· < ·) dw
  writes_ro : env.cpWritable = false → dw = []
  no_raise : env.cpWritable = true → 0 ≤ env.delay → ∀ m,
    out.kind ≠ .raised m
  ro_raise : env.cpWritable = false → ∀ t ∈ dt, t.outcome ≠ .hung →
    ∃ m, out.kind = .raised m

/-- The state after `save_checkpoint(i + 1)`, the progress emit and the
waiting log. -/
def savedRow (env : Env) (total i : Nat) (st : LoopSt) : LoopSt :=
  { st with
    cp := .content (natStr (i + 1))
    cpWrites := st.cpWrites ++ [i + 1]
    events := st.events ++
      [Event.progress (100 * (i + 1) / total),
       Event.log ("Waiting for " ++ env.delayStr ++
         " seconds before next email...\n")] }

/-- The trace entry recorded for a processed row. -/
def rowEntry (env : Env) (i : Nat) (r : Record) (st : LoopSt) : RowTrace :=
  ⟨i, load_html_content (env.template i) r.sal r.signatureCol,
    (sendLoop (env.attempt i) r st.sent env.fuel 0).outcome⟩

/-! ### Concrete instances for witnesses and counterexamples -/

/-- A well-formed contact row. -/
def sampleRow : Record :=
  ⟨"alice@example.com", "hunter2", "Alice", "Bob", "carol@example.com",
    "Greetings", "body.html"⟩

/-- A workbook with the required columns and `n` copies of `sampleRow`. -/
def sampleDF (n : Nat) : DataFrame :=
  ⟨required_columns, List.replicate n sampleRow⟩

/-- A benign environment: everything succeeds, no cancellation. -/
def baseEnv (n : Nat) : Env :=
  { excel := .ok (sampleDF n)
    cp0 := .absent
    cpWritable := true
    template := fun _ => .ok "Hello"
    attempt := fun _ _ => .success
    cancelledAt := fun _ => false
    report := .ok ()
    fuel := 3
    delay := 0
    delayStr := "1" }

/-- Like `baseEnv 1`, but `save_checkpoint` fails. -/
def envNoCp : Env := { baseEnv 1 with cpWritable := false }

/-- Like `baseEnv 1`, but the checkpoint file exists and cannot be
opened. -/
def envBadCp : Env := { baseEnv 1 with cp0 := .unopenable }

/-- Like `baseEnv 2`, but the checkpoint file already reads `5`. -/
def envSkip : Env := { baseEnv 2 with cp0 := .content "5" }

/-- A transport oracle: first attempt fails with the probe down, the
second succeeds. -/
def cAtt : Nat → AttemptResult :=
  fun t => if t = 0 then .failure "connection reset" false else .success

deriving instance DecidableEq for Except

/-! ### Theorems -/

/-! ### Decimal roundtrip (`int(str(n)) = n`) -/

theorem digit?_digitChar {d : Nat} (h : d < 10) :
    digit? (digitChar d) = some d := by
  interval_cases d <;> decide

theorem isPySpace_digitChar {d : Nat} (h : d < 10) :
    isPySpace (digitChar d) = false := by
  interval_cases d <;> decide

theorem digitChar_ne_sign {d : Nat} (h : d < 10) :
    digitChar d ≠ '+' ∧ digitChar d ≠ '-' := by
  interval_cases d <;> exact ⟨by decide, by decide⟩

theorem pushNum_zero (n : Nat) : pushNum 0 n = n := by
  induction n using Nat.strong_induction_on with
  | _ n ih =>
    rw [pushNum]
    by_cases h : n < 10
    · simp [h]
    · simp only [h, if_false]
      rw [ih (n / 10) (Nat.div_lt_self (by omega) (by omega))]
      omega

theorem parseNatAcc_natChars (n : Nat) :
    ∀ a acc, parseNatAcc a (natChars n acc) = parseNatAcc (pushNum a n) acc := by
  induction n using Nat.strong_induction_on with
  | _ n ih =>
    intro a acc
    rw [natChars, pushNum]
    by_cases h : n < 10
    · simp only [h, if_true, parseNatAcc, digit?_digitChar h]
    · simp only [h, if_false]
      rw [ih (n / 10) (Nat.div_lt_self (by omega) (by omega))]
      simp [parseNatAcc, digit?_digitChar (Nat.mod_lt n (by omega))]

theorem natChars_mem (n : Nat) :
    ∀ acc, ∀ c ∈ natChars n acc, (∃ d, d < 10 ∧ c = digitChar d) ∨ c ∈ acc := by
  induction n using Nat.strong_induction_on with
  | _ n ih =>
    intro acc c hc
    rw [natChars] at hc
    by_cases h : n < 10
    · simp only [h, if_true, List.mem_cons] at hc
      rcases hc with hc | hc
      · exact Or.inl ⟨n, h, hc⟩
      · exact Or.inr hc
    · simp only [h, if_false] at hc
      rcases ih (n / 10) (Nat.div_lt_self (by omega) (by omega)) _ c hc with
        hd | hm
      · exact Or.inl hd
      · rcases List.mem_cons.mp hm with hc' | hc'
        · exact Or.inl ⟨n % 10, Nat.mod_lt n (by omega), hc'⟩
        · exact Or.inr hc'

theorem natChars_head (n : Nat) :
    ∀ acc, ∃ d rest, d < 10 ∧ natChars n acc = digitChar d :: rest := by
  induction n using Nat.strong_induction_on with
  | _ n ih =>
    intro acc
    rw [natChars]
    by_cases h : n < 10
    · exact ⟨n, acc, h, by simp [h]⟩
    · simp only [h, if_false]
      exact ih (n / 10) (Nat.div_lt_self (by omega) (by omega)) _

theorem dropWhile_eq_self_of_neg {p : Char → Bool} :
    ∀ l : List Char, (∀ c ∈ l, p c = false) → l.dropWhile p = l := by
  intro l h
  cases l with
  | nil => rfl
  | cons a l => simp [List.dropWhile_cons, h a (by simp)]

theorem pyStrip_eq_self {l : List Char} (h : ∀ c ∈ l, isPySpace c = false) :
    pyStrip l = l := by
  unfold pyStrip
  rw [dropWhile_eq_self_of_neg l h,
    dropWhile_eq_self_of_neg l.reverse (fun c hc => h c (List.mem_reverse.mp hc)),
    List.reverse_reverse]

theorem pyInt?_natStr (n : Nat) : pyInt? (natStr n) = some (n : Int) := by
  have hmem : ∀ c ∈ natChars n [], isPySpace c = false := by
    intro c hc
    rcases natChars_mem n [] c hc with ⟨d, hd, rfl⟩ | h
    · exact isPySpace_digitChar hd
    · simp at h
  have hlist : (natStr n).toList = natChars n [] := rfl
  obtain ⟨d, rest, hd, hcons⟩ := natChars_head n []
  have hstep : pyInt? (natStr n) =
      (parseNat? (digitChar d :: rest)).map (fun m => (m : Int)) := by
    unfold pyInt?
    rw [hlist, pyStrip_eq_self hmem, hcons]
    simp [(digitChar_ne_sign hd).1, (digitChar_ne_sign hd).2]
  have hparse : parseNat? (digitChar d :: rest) = some n := by
    have : parseNat? (digitChar d :: rest) =
        parseNatAcc 0 (digitChar d :: rest) := rfl
    rw [this, ← hcons, parseNatAcc_natChars n 0 [], pushNum_zero]
    rfl
  rw [hstep, hparse]
  rfl

theorem load_checkpoint_natStr (n : Nat) :
    load_checkpoint (.content (natStr n)) = .ok (n : Int) := by
  simp [load_checkpoint, pyInt?_natStr]

/-! ### Lemmas: the send-retry sub-loop -/

theorem sendLoop_sent_eq (att : Nat → AttemptResult) (r : Record) (s0 : Nat) :
    ∀ fuel t, (sendLoop att r s0 fuel t).sent =
      (if (sendLoop att r s0 fuel t).outcome = .sent then s0 + 1 else s0) := by
  intro fuel
  induction fuel with
  | zero => intro t; simp [sendLoop]
  | succ fuel ih =>
    intro t
    simp only [sendLoop]
    rcases h : att t with _ | ⟨msg, netUp⟩
    · simp
    · cases netUp
      · simpa using ih (t + 1)
      · simp

theorem sendLoop_all_netdown (att : Nat → AttemptResult) (r : Record)
    (s0 : Nat) (h : ∀ t, ∃ m, att t = .failure m false) :
    ∀ fuel t, (sendLoop att r s0 fuel t).outcome = .hung ∧
      (sendLoop att r s0 fuel t).sent = s0 := by
  intro fuel
  induction fuel with
  | zero => intro t; simp [sendLoop]
  | succ fuel ih =>
    intro t
    obtain ⟨m, hm⟩ := h t
    simp only [sendLoop, hm]
    simpa using ih (t + 1)

theorem sendLoop_first_success (att : Nat → AttemptResult) (r : Record)
    (s0 : Nat) :
    ∀ k fuel t, (∀ u, u < k → ∃ m, att (t + u) = .failure m false) →
    att (t + k) = .success → k < fuel →
    (sendLoop att r s0 fuel t).outcome = .sent ∧
      (sendLoop att r s0 fuel t).sent = s0 + 1 := by
  intro k
  induction k with
  | zero =>
    intro fuel t _ hk hfuel
    obtain ⟨fuel', rfl⟩ : ∃ f, fuel = f + 1 := ⟨fuel - 1, by omega⟩
    have hk' : att t = .success := by simpa using hk
    simp [sendLoop, hk']
  | succ k ih =>
    intro fuel t hpre hk hfuel
    obtain ⟨fuel', rfl⟩ : ∃ f, fuel = f + 1 := ⟨fuel - 1, by omega⟩
    obtain ⟨m, hm⟩ := hpre 0 (by omega)
    have hm' : att t = .failure m false := by simpa using hm
    have hrec := ih fuel' (t + 1)
      (fun u hu => by
        obtain ⟨m', hm''⟩ := hpre (u + 1) (by omega)
        exact ⟨m', by rw [show t + 1 + u = t + (u + 1) from by omega]; exact hm''⟩)
      (by rw [show t + 1 + k = t + (k + 1) from by omega]; exact hk)
      (by omega)
    simp only [sendLoop, hm']
    simpa using hrec

/-! ### Lemmas: counting finalized rows -/

theorem countFinal_nil : countFinal [] = 0 := rfl

theorem countFinal_cons (t : RowTrace) (l : List RowTrace) :
    countFinal (t :: l) =
      (if t.outcome = .hung then 0 else 1) + countFinal l := by
  rcases t with ⟨i, b, o⟩
  cases o <;> simp [countFinal, List.filter_cons, isHung] <;> omega

theorem countFinal_le (l : List RowTrace) : countFinal l ≤ l.length :=
  List.length_filter_le _ _

/-! ### Lemmas: the row loop skips everything below the checkpoint -/

theorem rowsLoop_skip_all (env : Env) (total : Nat) (start : Int) :
    ∀ (rows : List Record) (i : Nat) (st : LoopSt),
    (∀ k, i ≤ k → k < i + rows.length → (k : Int) < start) →
    rowsLoop env total start i rows st = ⟨st, .normal⟩ := by
  intro rows
  induction rows with
  | nil => intro i st _; rfl
  | cons r rest ih =>
    intro i st h
    have hi : (i : Int) < start := h i le_rfl (by simp)
    simp only [rowsLoop, hi, if_true]
    exact ih (i + 1) st (fun k hk1 hk2 => h k (by omega) (by simpa using by omega))

/-! ### Lemmas: packaging the loop result -/

theorem wrapOut_sent (env : Env) (out : LoopOut) :
    (wrapOut env out).sent = out.st.sent := by
  cases h : out.kind <;> simp [wrapOut, finish, h]

theorem wrapOut_failures (env : Env) (out : LoopOut) :
    (wrapOut env out).failures = out.st.failures := by
  cases h : out.kind <;> simp [wrapOut, finish, h]

theorem wrapOut_trace (env : Env) (out : LoopOut) :
    (wrapOut env out).trace = out.st.trace := by
  cases h : out.kind <;> simp [wrapOut, finish, h]

theorem wrapOut_cpWrites (env : Env) (out : LoopOut) :
    (wrapOut env out).cpWrites = out.st.cpWrites := by
  cases h : out.kind <;> simp [wrapOut, finish, h]

theorem wrapOut_cpFinal (env : Env) (out : LoopOut) :
    (wrapOut env out).cpFinal = out.st.cp := by
  cases h : out.kind <;> simp [wrapOut, finish, h]

theorem wrapOut_term_cancel (env : Env) (out : LoopOut) :
    (wrapOut env out).term = .finishedRun true ↔ out.kind = .cancelled := by
  cases h : out.kind <;> simp [wrapOut, finish, h]

theorem wrapOut_term_raised (env : Env) (out : LoopOut) (m : String) :
    (wrapOut env out).term = .raised m ↔ out.kind = .raised m := by
  cases h : out.kind <;> simp [wrapOut, finish, h]

theorem wrapOut_events_mem (env : Env) (out : LoopOut) (e : Event)
    (h : e ∈ out.st.events) : e ∈ (wrapOut env out).events := by
  cases hk : out.kind <;> simp [wrapOut, finish, hk, h]

theorem cpFold_getLast :
    ∀ (l : List Nat) (c : CheckFile) (w : Nat), l.getLast? = some w →
    l.foldl cpFold c = .content (natStr w) := by
  intro l
  induction l with
  | nil => intro c w h; simp at h
  | cons a l ih =>
    intro c w h
    cases l with
    | nil => simp at h; subst h; rfl
    | cons b l' =>
      rw [List.getLast?_cons_cons] at h
      simpa [List.foldl_cons] using ih _ w h

theorem pairwise_le_getLast :
    ∀ (l : List Nat), List.Pairwise (· < ·) l →
    ∀ x ∈ l, ∀ w, l.getLast? = some w → x ≤ w := by
  intro l
  induction l with
  | nil => intro _ x hx; simp at hx
  | cons a l ih =>
    intro hp x hx w hw
    rcases List.pairwise_cons.mp hp with ⟨ha, hp'⟩
    cases l with
    | nil =>
      simp at hx hw
      omega
    | cons b l' =>
      rw [List.getLast?_cons_cons] at hw
      rcases List.mem_cons.mp hx with rfl | hx'
      · obtain ⟨hne, heq⟩ :=
          List.mem_getLast?_eq_getLast (show w ∈ (b :: l').getLast? from hw)
        have hwmem : w ∈ b :: l' := by rw [heq]; exact List.getLast_mem hne
        exact le_of_lt (ha w hwmem)
      · exact ih hp' x hx' w hw

theorem getLast?_isSome_of_ne_nil {l : List Nat} (h : l ≠ []) :
    ∃ w, l.getLast? = some w := by
  cases hl : l.getLast? with
  | some w => exact ⟨w, rfl⟩
  | none => exact absurd (List.getLast?_eq_none_iff.mp hl) h

theorem processRow_hung_eq (env : Env) (total i : Nat) (r : Record)
    (st : LoopSt)
    (h : (sendLoop (env.attempt i) r st.sent env.fuel 0).outcome = .hung) :
    processRow env total i r st = (afterSend env i r st, some (.hungAt i)) := by
  unfold processRow afterSend
  simp [h]

theorem processRow_not_hung_eq (env : Env) (total i : Nat) (r : Record)
    (st : LoopSt)
    (h : (sendLoop (env.attempt i) r st.sent env.fuel 0).outcome ≠ .hung) :
    processRow env total i r st =
      finalizeRow env total i (afterSend env i r st) := by
  unfold processRow afterSend
  rcases ho : (sendLoop (env.attempt i) r st.sent env.fuel 0).outcome with
    _ | e | _ <;> simp [ho] <;> simp [ho] at h

theorem score_afterSend (env : Env) (i : Nat) (r : Record) (st : LoopSt)
    (h : (sendLoop (env.attempt i) r st.sent env.fuel 0).outcome ≠ .hung) :
    score (afterSend env i r st) = score st + 1 := by
  have hs := sendLoop_sent_eq (env.attempt i) r st.sent env.fuel 0
  rcases ho : (sendLoop (env.attempt i) r st.sent env.fuel 0).outcome with
    _ | e | _
  · rw [ho] at hs
    simp at hs
    simp [afterSend, score, recordFailure, ho, hs]
    omega
  · rw [ho] at hs
    simp at hs
    simp [afterSend, score, recordFailure, ho, hs]
    omega
  · exact absurd ho h

theorem score_afterSend_hung (env : Env) (i : Nat) (r : Record) (st : LoopSt)
    (h : (sendLoop (env.attempt i) r st.sent env.fuel 0).outcome = .hung) :
    score (afterSend env i r st) = score st := by
  have hs := sendLoop_sent_eq (env.attempt i) r st.sent env.fuel 0
  rw [h] at hs
  simp at hs
  simp [afterSend, score, recordFailure, h, hs]

theorem finalizeRow_ro (env : Env) (total i : Nat) (st : LoopSt)
    (hw : env.cpWritable = false) :
    finalizeRow env total i st =
      (st, some (.raised "could not write checkpoint file")) := by
  simp [finalizeRow, hw]

theorem finalizeRow_w (env : Env) (total i : Nat) (st : LoopSt)
    (hw : env.cpWritable = true) :
    finalizeRow env total i st =
      (savedRow env total i st,
        if env.delay < 0 then
          some (.raised "sleep length must be non-negative")
        else none) := by
  by_cases hd : env.delay < 0 <;> simp [finalizeRow, savedRow, hw, hd]

theorem rowEntry_idx (env : Env) (i : Nat) (r : Record) (st : LoopSt) :
    (rowEntry env i r st).idx = i := rfl

/-- The row-loop invariant, proved by induction over the remaining rows.
The hypothesis says all trace entries so far concern earlier rows. -/
theorem rowsLoop_master (env : Env) (total : Nat) (start : Int) :
    ∀ (rows : List Record) (i : Nat) (st : LoopSt),
    (∀ t ∈ st.trace, t.idx < i) →
    ∃ dt de df dw, LoopFacts env total start i rows st
      (rowsLoop env total start i rows st) dt de df dw := by
  intro rows
  induction rows with
  | nil =>
    intro i st _
    refine ⟨[], [], [], [], ?_⟩
    have hrw : rowsLoop env total start i [] st = ⟨st, .normal⟩ := rfl
    rw [hrw]
    exact {
      trace_eq := by simp
      events_eq := by simp
      failures_eq := by simp
      writes_eq := by simp
      cp_eq := by simp
      bounds := by simp
      len_le := by simp
      score_eq := by simp [countFinal_nil]
      full_iff := by
        constructor
        · intro _
          refine ⟨fun k hk1 hk2 => ?_, by simp⟩
          exfalso
          simp only [List.length_nil] at hk2
          omega
        · intro _
          simp [countFinal_nil]
      rowData := by simp
      fail_src := by simp
      prog_writes := by intro _ t ht; simp at ht
      writes_src := by simp
      writes_sorted := by simp
      writes_ro := fun _ => rfl
      no_raise := by intro _ _ m; simp
      ro_raise := by intro _ t ht; simp at ht
    }
  | cons r rest ih =>
    intro i st Hidx
    by_cases hski : (i : Int) < start
    · -- row skipped by the checkpoint: `continue`, no side effects
      have hrw : rowsLoop env total start i (r :: rest) st =
          rowsLoop env total start (i + 1) rest st := by
        simp [rowsLoop, hski]
      obtain ⟨dt, de, df, dw, F⟩ := ih (i + 1) st
        (fun t ht => Nat.lt_succ_of_lt (Hidx t ht))
      refine ⟨dt, de, df, dw, ?_⟩
      rw [hrw]
      exact {
        trace_eq := F.trace_eq
        events_eq := F.events_eq
        failures_eq := F.failures_eq
        writes_eq := F.writes_eq
        cp_eq := F.cp_eq
        bounds := fun t ht => by
          obtain ⟨h1, h2, h3, h4⟩ := F.bounds t ht
          exact ⟨by omega, by simp only [List.length_cons]; omega, h3, h4⟩
        len_le := by
          have := F.len_le
          simp only [List.length_cons]
          omega
        score_eq := F.score_eq
        full_iff := by
          have h1 := countFinal_le dt
          have h2 := F.len_le
          constructor
          · intro hcf
            exfalso
            simp only [List.length_cons] at hcf
            omega
          · rintro ⟨hall, _⟩
            exfalso
            obtain ⟨t, ht, hidx, hout⟩ :=
              hall i le_rfl (by simp only [List.length_cons]; omega)
            rcases List.mem_append.mp ht with hmem | hmem
            · exact absurd (Hidx t hmem) (by omega)
            · exact absurd (F.bounds t hmem).1 (by omega)
        rowData := fun t ht => by
          obtain ⟨r', hr', hb, ho⟩ := F.rowData t ht
          refine ⟨r', ?_, hb, ho⟩
          have hge : i + 1 ≤ t.idx := (F.bounds t ht).1
          rw [show t.idx - i = (t.idx - (i + 1)) + 1 from by omega,
            List.getElem?_cons_succ]
          exact hr'
        fail_src := F.fail_src
        prog_writes := F.prog_writes
        writes_src := fun w hw => by
          obtain ⟨h1, h2⟩ := F.writes_src w hw
          exact ⟨by omega, h2⟩
        writes_sorted := F.writes_sorted
        writes_ro := F.writes_ro
        no_raise := F.no_raise
        ro_raise := F.ro_raise
      }
    · cases hcan : env.cancelledAt i with
      | true =>
        -- `_running` observed false: `break`
        have hrw : rowsLoop env total start i (r :: rest) st =
            ⟨st, .cancelled⟩ := by
          simp [rowsLoop, hski, hcan]
        refine ⟨[], [], [], [], ?_⟩
        rw [hrw]
        exact {
          trace_eq := by simp
          events_eq := by simp
          failures_eq := by simp
          writes_eq := by simp
          cp_eq := by simp
          bounds := by simp
          len_le := by simp
          score_eq := by simp [countFinal_nil]
          full_iff := by
            constructor
            · intro hcf
              exfalso
              simp only [countFinal_nil, List.length_cons] at hcf
              omega
            · rintro ⟨_, hk⟩
              exact absurd rfl hk
          rowData := by simp
          fail_src := by simp
          prog_writes := by intro _ t ht; simp at ht
          writes_src := by simp
          writes_sorted := by simp
          writes_ro := fun _ => rfl
          no_raise := by intro _ _ m; simp
          ro_raise := by intro _ t ht; simp at ht
        }
      | false =>
        by_cases hhg :
          (sendLoop (env.attempt i) r st.sent env.fuel 0).outcome = .hung
        · -- the retry sub-loop never terminates for this row
          have hrw : rowsLoop env total start i (r :: rest) st =
              ⟨afterSend env i r st, .hungAt i⟩ := by
            simp [rowsLoop, hski, hcan, processRow_hung_eq env total i r st hhg]
          refine ⟨[rowEntry env i r st], sendingLog i r ::
            (sendLoop (env.attempt i) r st.sent env.fuel 0).events, [], [], ?_⟩
          rw [hrw]
          exact {
            trace_eq := by simp [afterSend, rowEntry]
            events_eq := by simp [afterSend]
            failures_eq := by simp [afterSend, recordFailure, hhg]
            writes_eq := by simp [afterSend]
            cp_eq := by simp [afterSend]
            bounds := by
              intro t ht
              rw [List.mem_singleton] at ht
              subst ht
              exact ⟨le_rfl, by simp only [rowEntry, List.length_cons]; omega,
                le_of_not_lt hski, hcan⟩
            len_le := by simp
            score_eq := by
              rw [score_afterSend_hung env i r st hhg]
              simp [countFinal_cons, countFinal_nil, rowEntry, hhg]
            full_iff := by
              have hcf : countFinal [rowEntry env i r st] = 0 := by
                simp [countFinal_cons, countFinal_nil, rowEntry, hhg]
              rw [hcf]
              constructor
              · intro h0
                exfalso
                simp only [List.length_cons] at h0
                omega
              · rintro ⟨hall, _⟩
                exfalso
                obtain ⟨t, ht, hidx, hout⟩ :=
                  hall i le_rfl (by simp only [List.length_cons]; omega)
                rcases List.mem_append.mp ht with hmem | hmem
                · exact absurd (Hidx t hmem) (by omega)
                · rw [List.mem_singleton] at hmem
                  subst hmem
                  exact hout (by simpa [rowEntry] using hhg)
            rowData := by
              intro t ht
              rw [List.mem_singleton] at ht
              subst ht
              exact ⟨r, by simp [rowEntry], rfl, st.sent, rfl⟩
            fail_src := by simp
            prog_writes := by
              intro _ t ht hne
              rw [List.mem_singleton] at ht
              subst ht
              exact absurd (by simpa [rowEntry] using hhg) hne
            writes_src := by simp
            writes_sorted := by simp
            writes_ro := fun _ => rfl
            no_raise := by intro _ _ m; simp
            ro_raise := by
              intro _ t ht hne
              rw [List.mem_singleton] at ht
              subst ht
              exact absurd (by simpa [rowEntry] using hhg) hne
          }
        · -- the row is finalized (sent or terminally failed)
          have hpr := processRow_not_hung_eq env total i r st hhg
          have hcf1 : countFinal [rowEntry env i r st] = 1 := by
            simp [countFinal_cons, countFinal_nil, rowEntry, hhg]
          cases hwv : env.cpWritable with
          | false =>
            -- `save_checkpoint` raises
            have hrw : rowsLoop env total start i (r :: rest) st =
                ⟨afterSend env i r st,
                  .raised "could not write checkpoint file"⟩ := by
              simp [rowsLoop, hski, hcan, hpr,
                finalizeRow_ro env total i (afterSend env i r st) hwv]
            refine ⟨[rowEntry env i r st], sendingLog i r ::
              (sendLoop (env.attempt i) r st.sent env.fuel 0).events,
              recordFailure (sendLoop (env.attempt i) r st.sent env.fuel 0).outcome,
              [], ?_⟩
            rw [hrw]
            exact {
              trace_eq := by simp [afterSend, rowEntry]
              events_eq := by simp [afterSend]
              failures_eq := by simp [afterSend]
              writes_eq := by simp [afterSend]
              cp_eq := by simp [afterSend]
              bounds := by
                intro t ht
                rw [List.mem_singleton] at ht
                subst ht
                exact ⟨le_rfl, by simp only [rowEntry, List.length_cons]; omega,
                  le_of_not_lt hski, hcan⟩
              len_le := by simp
              score_eq := by
                rw [score_afterSend env i r st hhg, hcf1]
              full_iff := by
                rw [hcf1]
                constructor
                · intro h1
                  simp only [List.length_cons] at h1
                  refine ⟨?_, by simp⟩
                  intro k hk1 hk2
                  simp only [List.length_cons] at hk2
                  have hk : k = i := by omega
                  exact ⟨rowEntry env i r st, by simp,
                    by rw [rowEntry_idx, hk],
                    by simpa [rowEntry] using hhg⟩
                · rintro ⟨hall, _⟩
                  simp only [List.length_cons]
                  by_contra hne0
                  obtain ⟨t, ht, hidx, hout⟩ := hall (i + 1) (by omega)
                    (by simp only [List.length_cons]; omega)
                  rcases List.mem_append.mp ht with hmem | hmem
                  · exact absurd (Hidx t hmem) (by omega)
                  · rw [List.mem_singleton] at hmem
                    subst hmem
                    exact absurd (show (rowEntry env i r st).idx = i from rfl)
                      (by omega)
              rowData := by
                intro t ht
                rw [List.mem_singleton] at ht
                subst ht
                exact ⟨r, by simp [rowEntry], rfl, st.sent, rfl⟩
              fail_src := by
                intro e he
                refine ⟨rowEntry env i r st, List.mem_singleton_self _, ?_⟩
                rcases ho : (sendLoop (env.attempt i) r st.sent env.fuel 0).outcome
                  with _ | e' | _
                · rw [ho] at he; simp [recordFailure] at he
                · rw [ho] at he
                  simp [recordFailure] at he
                  subst he
                  simp [rowEntry, ho]
                · exact absurd ho hhg
              prog_writes := by
                intro h
                rw [h] at hwv
                simp at hwv
              writes_src := by simp
              writes_sorted := by simp
              writes_ro := fun _ => rfl
              no_raise := by
                intro h
                rw [h] at hwv
                simp at hwv
              ro_raise := by
                intro _ t ht hne
                exact ⟨"could not write checkpoint file", rfl⟩
            }
          | true =>
            by_cases hd : env.delay < 0
            · -- `time.sleep` raises on a negative delay
              have hrw : rowsLoop env total start i (r :: rest) st =
                  ⟨savedRow env total i (afterSend env i r st),
                    .raised "sleep length must be non-negative"⟩ := by
                simp [rowsLoop, hski, hcan, hpr,
                  finalizeRow_w env total i (afterSend env i r st) hwv, hd]
              refine ⟨[rowEntry env i r st], sendingLog i r ::
                ((sendLoop (env.attempt i) r st.sent env.fuel 0).events ++
                  [Event.progress (100 * (i + 1) / total),
                   Event.log ("Waiting for " ++ env.delayStr ++
                     " seconds before next email...\n")]),
                recordFailure (sendLoop (env.attempt i) r st.sent env.fuel 0).outcome,
                [i + 1], ?_⟩
              rw [hrw]
              exact {
                trace_eq := by simp [savedRow, afterSend, rowEntry]
                events_eq := by simp [savedRow, afterSend]
                failures_eq := by simp [savedRow, afterSend]
                writes_eq := by simp [savedRow, afterSend]
                cp_eq := by simp [savedRow, afterSend, cpFold]
                bounds := by
                  intro t ht
                  rw [List.mem_singleton] at ht
                  subst ht
                  exact ⟨le_rfl, by simp only [rowEntry, List.length_cons]; omega,
                    le_of_not_lt hski, hcan⟩
                len_le := by simp
                score_eq := by
                  have hsc : score (savedRow env total i (afterSend env i r st)) =
                      score (afterSend env i r st) := rfl
                  rw [hsc, score_afterSend env i r st hhg, hcf1]
                full_iff := by
                  rw [hcf1]
                  constructor
                  · intro h1
                    simp only [List.length_cons] at h1
                    refine ⟨?_, by simp⟩
                    intro k hk1 hk2
                    simp only [List.length_cons] at hk2
                    have hk : k = i := by omega
                    exact ⟨rowEntry env i r st, by simp,
                      by rw [rowEntry_idx, hk],
                      by simpa [rowEntry] using hhg⟩
                  · rintro ⟨hall, _⟩
                    simp only [List.length_cons]
                    by_contra hne0
                    obtain ⟨t, ht, hidx, hout⟩ := hall (i + 1) (by omega)
                      (by simp only [List.length_cons]; omega)
                    rcases List.mem_append.mp ht with hmem | hmem
                    · exact absurd (Hidx t hmem) (by omega)
                    · rw [List.mem_singleton] at hmem
                      subst hmem
                      exact absurd (show (rowEntry env i r st).idx = i from rfl)
                        (by omega)
                rowData := by
                  intro t ht
                  rw [List.mem_singleton] at ht
                  subst ht
                  exact ⟨r, by simp [rowEntry], rfl, st.sent, rfl⟩
                fail_src := by
                  intro e he
                  refine ⟨rowEntry env i r st, List.mem_singleton_self _, ?_⟩
                  rcases ho : (sendLoop (env.attempt i) r st.sent env.fuel 0).outcome
                    with _ | e' | _
                  · rw [ho] at he; simp [recordFailure] at he
                  · rw [ho] at he
                    simp [recordFailure] at he
                    subst he
                    simp [rowEntry, ho]
                  · exact absurd ho hhg
                prog_writes := by
                  intro _ t ht hne
                  rw [List.mem_singleton] at ht
                  subst ht
                  refine ⟨?_, by simp [rowEntry]⟩
                  simp [rowEntry]
                writes_src := by
                  intro w hw
                  rw [List.mem_singleton] at hw
                  subst hw
                  exact ⟨by omega, rowEntry env i r st, List.mem_singleton_self _,
                    by simpa [rowEntry] using hhg, rfl⟩
                writes_sorted := by simp
                writes_ro := by
                  intro h
                  rw [h] at hwv
                  simp at hwv
                no_raise := by
                  intro _ hge m
                  exact absurd hd (not_lt.mpr hge)
                ro_raise := by
                  intro h
                  rw [h] at hwv
                  simp at hwv
              }
            · -- the row finalizes and the loop moves on
              have hrw : rowsLoop env total start i (r :: rest) st =
                  rowsLoop env total start (i + 1) rest
                    (savedRow env total i (afterSend env i r st)) := by
                simp [rowsLoop, hski, hcan, hpr,
                  finalizeRow_w env total i (afterSend env i r st) hwv, hd]
              have Hidx2 : ∀ t ∈ (savedRow env total i (afterSend env i r st)).trace,
                  t.idx < i + 1 := by
                intro t ht
                simp only [savedRow, afterSend] at ht
                rcases List.mem_append.mp ht with hmem | hmem
                · exact Nat.lt_succ_of_lt (Hidx t hmem)
                · rw [List.mem_singleton] at hmem
                  subst hmem
                  show i < i + 1
                  omega
              obtain ⟨dt', de', df', dw', F⟩ := ih (i + 1)
                (savedRow env total i (afterSend env i r st)) Hidx2
              have hsame : (savedRow env total i (afterSend env i r st)).trace ++ dt' =
                  st.trace ++ (rowEntry env i r st :: dt') := by
                simp [savedRow, afterSend, rowEntry]
              have hcfc : countFinal (rowEntry env i r st :: dt') =
                  1 + countFinal dt' := by
                rw [countFinal_cons]
                simp [rowEntry, hhg]
              refine ⟨rowEntry env i r st :: dt', sendingLog i r ::
                ((sendLoop (env.attempt i) r st.sent env.fuel 0).events ++
                  [Event.progress (100 * (i + 1) / total),
                   Event.log ("Waiting for " ++ env.delayStr ++
                     " seconds before next email...\n")] ++ de'),
                recordFailure (sendLoop (env.attempt i) r st.sent env.fuel 0).outcome
                  ++ df',
                (i + 1) :: dw', ?_⟩
              rw [hrw]
              exact {
                trace_eq := by
                  rw [F.trace_eq]
                  simp [savedRow, afterSend, rowEntry]
                events_eq := by
                  rw [F.events_eq]
                  simp [savedRow, afterSend]
                failures_eq := by
                  rw [F.failures_eq]
                  simp [savedRow, afterSend]
                writes_eq := by
                  rw [F.writes_eq]
                  simp [savedRow, afterSend]
                cp_eq := by
                  rw [F.cp_eq]
                  simp [savedRow, afterSend, cpFold, List.foldl_cons]
                bounds := by
                  intro t ht
                  rcases List.mem_cons.mp ht with rfl | hmem
                  · exact ⟨le_rfl, by simp only [rowEntry, List.length_cons]; omega,
                      le_of_not_lt hski, hcan⟩
                  · obtain ⟨h1, h2, h3, h4⟩ := F.bounds t hmem
                    exact ⟨by omega, by simp only [List.length_cons]; omega, h3, h4⟩
                len_le := by
                  have := F.len_le
                  simp only [List.length_cons]
                  omega
                score_eq := by
                  have h1 := F.score_eq
                  have h2 : score (savedRow env total i (afterSend env i r st)) =
                      score st + 1 := by
                    have hsc : score (savedRow env total i (afterSend env i r st)) =
                        score (afterSend env i r st) := rfl
                    rw [hsc, score_afterSend env i r st hhg]
                  rw [hcfc]
                  omega
                full_iff := by
                  rw [hcfc]
                  constructor
                  · intro h1
                    simp only [List.length_cons] at h1
                    have hdt : countFinal dt' = rest.length := by omega
                    obtain ⟨hall', hk⟩ := F.full_iff.mp hdt
                    refine ⟨?_, hk⟩
                    intro k hk1 hk2
                    rcases Nat.eq_or_lt_of_le hk1 with heq | hlt
                    · exact ⟨rowEntry env i r st, by simp,
                        by rw [rowEntry_idx, ← heq],
                        by simpa [rowEntry] using hhg⟩
                    · have hfin := hall' k (by omega)
                        (by simp only [List.length_cons] at hk2; omega)
                      rw [hsame] at hfin
                      exact hfin
                  · rintro ⟨hall, hk⟩
                    have hdt : countFinal dt' = rest.length := by
                      apply F.full_iff.mpr
                      refine ⟨?_, hk⟩
                      intro k hk1 hk2
                      have hfin := hall k (by omega)
                        (by simp only [List.length_cons]; omega)
                      rw [← hsame] at hfin
                      exact hfin
                    simp only [List.length_cons]
                    omega
                rowData := by
                  intro t ht
                  rcases List.mem_cons.mp ht with rfl | hmem
                  · exact ⟨r, by simp [rowEntry], rfl, st.sent, rfl⟩
                  · obtain ⟨r', hr', hb, ho⟩ := F.rowData t hmem
                    refine ⟨r', ?_, hb, ho⟩
                    have hge : i + 1 ≤ t.idx := (F.bounds t hmem).1
                    rw [show t.idx - i = (t.idx - (i + 1)) + 1 from by omega,
                      List.getElem?_cons_succ]
                    exact hr'
                fail_src := by
                  intro e he
                  rcases List.mem_append.mp he with hmem | hmem
                  · refine ⟨rowEntry env i r st, List.mem_cons_self _ _, ?_⟩
                    rcases ho : (sendLoop (env.attempt i) r st.sent env.fuel 0).outcome
                      with _ | e' | _
                    · rw [ho] at hmem; simp [recordFailure] at hmem
                    · rw [ho] at hmem
                      simp [recordFailure] at hmem
                      subst hmem
                      simp [rowEntry, ho]
                    · exact absurd ho hhg
                  · obtain ⟨t, ht, hto⟩ := F.fail_src e hmem
                    exact ⟨t, List.mem_cons_of_mem _ ht, hto⟩
                prog_writes := by
                  intro hwt t ht hne
                  rcases List.mem_cons.mp ht with rfl | hmem
                  · refine ⟨?_, by simp [rowEntry]⟩
                    simp [rowEntry]
                  · obtain ⟨hpe, hpw⟩ := F.prog_writes hwt t hmem hne
                    refine ⟨?_, List.mem_cons_of_mem _ hpw⟩
                    simp only [List.mem_cons, List.mem_append]
                    right
                    right
                    exact hpe
                writes_src := by
                  intro w hw
                  rcases List.mem_cons.mp hw with rfl | hmem
                  · exact ⟨by omega, rowEntry env i r st, List.mem_cons_self _ _,
                      by simpa [rowEntry] using hhg, rfl⟩
                  · obtain ⟨h1, t, ht, hto, heq⟩ := F.writes_src w hmem
                    exact ⟨by omega, t, List.mem_cons_of_mem _ ht, hto, heq⟩
                writes_sorted := by
                  refine List.pairwise_cons.mpr ⟨?_, F.writes_sorted⟩
                  intro w hw
                  exact (F.writes_src w hw).1
                writes_ro := by
                  intro h
                  rw [h] at hwv
                  simp at hwv
                no_raise := F.no_raise
                ro_raise := by
                  intro h
                  rw [h] at hwv
                  simp at hwv
              }

/-! ### Lemmas: the whole run -/

theorem run_eq (env : Env) (df : DataFrame) (c : Int)
    (Hex : env.excel = .ok df)
    (Hsc : required_columns.find? (fun col => !(df.columns.contains col)) = none)
    (Hcp : load_checkpoint env.cp0 = .ok c) :
    run env = wrapOut env (rowsLoop env df.rows.length c 0 df.rows
      (initSt env df.rows.length c)) := by
  simp only [run, Hex, Hsc, Hcp]

theorem run_load_error (env : Env) (df : DataFrame) (m : String)
    (Hex : env.excel = .ok df)
    (Hsc : required_columns.find? (fun col => !(df.columns.contains col)) = none)
    (Hcp : load_checkpoint env.cp0 = .error m) :
    run env = ⟨[Event.totalContacts df.rows.length], 0, [], [], [], env.cp0,
      .raised m⟩ := by
  simp only [run, Hex, Hsc, Hcp]

theorem initSt_trace (env : Env) (total : Nat) (c : Int) :
    (initSt env total c).trace = [] := rfl

theorem initSt_cp (env : Env) (total : Nat) (c : Int) :
    (initSt env total c).cp = env.cp0 := rfl

theorem score_initSt (env : Env) (total : Nat) (c : Int) :
    score (initSt env total c) = 0 := rfl

theorem wrapOut_term_normal (env : Env) (out : LoopOut) :
    (wrapOut env out).term = .finishedRun false ↔ out.kind = .normal := by
  cases h : out.kind <;> simp [wrapOut, finish, h]

theorem isHung_false_iff (o : SendOutcome) : isHung o = false ↔ o ≠ .hung := by
  cases o <;> simp [isHung]

/-- A positive finalized count yields a finalized trace entry. -/
theorem exists_finalized_of_countFinal_pos {dt : List RowTrace}
    (h : 0 < countFinal dt) : ∃ t ∈ dt, t.outcome ≠ .hung := by
  unfold countFinal at h
  rcases hne : dt.filter (fun t => !isHung t.outcome) with _ | ⟨t, l⟩
  · rw [hne] at h; simp at h
  · have hmem : t ∈ dt.filter (fun t => !isHung t.outcome) := by
      rw [hne]; exact List.mem_cons_self _ _
    rcases List.mem_filter.mp hmem with ⟨hdt, hp⟩
    refine ⟨t, hdt, ?_⟩
    rw [Bool.not_eq_true'] at hp
    exact (isHung_false_iff t.outcome).mp hp

/-- A run whose loaded checkpoint is at least the record count skips
every row and finishes at once: the exact observable result. -/
theorem run_skip_all (env : Env) (df : DataFrame) (c : Int)
    (Hex : env.excel = .ok df)
    (Hsc : required_columns.find? (fun col => !(df.columns.contains col)) = none)
    (Hcp : load_checkpoint env.cp0 = .ok c)
    (Hge : (df.rows.length : Int) ≤ c) :
    run env = ⟨[Event.totalContacts df.rows.length,
        Event.log ("Resuming from row " ++ intStr c),
        Event.log "Finished sending emails.\n", Event.finished],
      0, [], [], [], env.cp0, .finishedRun false⟩ := by
  rw [run_eq env df c Hex Hsc Hcp]
  rw [rowsLoop_skip_all env df.rows.length c df.rows 0
    (initSt env df.rows.length c) (fun k hk1 hk2 => by omega)]
  simp [wrapOut, finish, initSt]

/-- Whatever else the oracles do, a run never touches a row whose index
is below the loaded checkpoint. -/
theorem run_trace_ge (env : Env) (c : Int)
    (Hcp : load_checkpoint env.cp0 = .ok c) :
    ∀ t ∈ (run env).trace, c ≤ (t.idx : Int) := by
  cases Hex : env.excel with
  | error e =>
    intro t ht
    simp only [run, Hex] at ht
    simp at ht
  | ok df =>
    cases Hsc : required_columns.find? (fun col => !(df.columns.contains col)) with
    | some col =>
      intro t ht
      simp only [run, Hex, Hsc] at ht
      simp at ht
    | none =>
      rw [run_eq env df c Hex Hsc Hcp]
      obtain ⟨dt, de, dfl, dw, F⟩ := rowsLoop_master env df.rows.length c
        df.rows 0 (initSt env df.rows.length c)
        (by intro t ht; simp [initSt] at ht)
      intro t ht
      rw [wrapOut_trace, F.trace_eq, initSt_trace, List.nil_append] at ht
      exact (F.bounds t ht).2.2.1

/-! ### The claims -/

/-- C6 (counterexample).  The claim says a checkpoint file that exists
but is unreadable yields `0` and never aborts a run.  When `open` itself
raises (the call outside the `try`), `load_checkpoint` propagates the
exception instead of returning `0`, and a run over `envBadCp` dies with
that exception before emitting `finished`. -/
theorem claim_C6_counterexample :
    load_checkpoint CheckFile.unopenable ≠ .ok 0 ∧
    (run envBadCp).term = RunTerm.raised "could not open checkpoint file" ∧
    Event.finished ∉ (run envBadCp).events := by
  decide

/-- C6 (amended).  `load_checkpoint` returns `0` when the file is
absent, when reading the opened file fails, or when the contents do not
parse as an integer; but a failure of `open` on an existing file
propagates as an exception. -/
theorem claim_C6 :
    load_checkpoint CheckFile.absent = .ok 0 ∧
    load_checkpoint CheckFile.readFails = .ok 0 ∧
    (∀ s, pyInt? s = none → load_checkpoint (.content s) = .ok 0) ∧
    load_checkpoint CheckFile.unopenable =
      .error "could not open checkpoint file" := by
  refine ⟨rfl, rfl, ?_, rfl⟩
  intro s hs
  simp [load_checkpoint, hs]

/-- Witness for C6 at the unparseable content `"garbage"`. -/
theorem claim_C6_witness :
    load_checkpoint (.content "garbage") = .ok 0 :=
  claim_C6.2.2.1 "garbage" (by decide)

/-- C8 (confirmed).  A failed template read renders the literal text
`"Error loading HTML file: <message>"`; in a run, every reached row's
body is exactly what `load_html_content` produced for it (so that error
text is used as the email body) and its outcome comes from the send
sub-loop, i.e. the send is still attempted and the run is not aborted by
the rendering error. -/
theorem claim_C8 (env : Env) (df : DataFrame)
    (Hex : env.excel = .ok df)
    (Hsc : required_columns.find? (fun col => !(df.columns.contains col)) = none) :
    (∀ m sal sig, load_html_content (.error m) sal sig =
      "Error loading HTML file: " ++ m) ∧
    (∀ t ∈ (run env).trace, ∃ r, df.rows[t.idx]? = some r ∧
      t.body = load_html_content (env.template t.idx) r.sal r.signatureCol ∧
      ∃ s0, t.outcome = (sendLoop (env.attempt t.idx) r s0 env.fuel 0).outcome) := by
  refine ⟨fun m sal sig => rfl, ?_⟩
  cases hcp : load_checkpoint env.cp0 with
  | error m =>
    intro t ht
    rw [run_load_error env df m Hex Hsc hcp] at ht
    simp at ht
  | ok c =>
    rw [run_eq env df c Hex Hsc hcp]
    obtain ⟨dt, de, dfl, dw, F⟩ := rowsLoop_master env df.rows.length c
      df.rows 0 (initSt env df.rows.length c)
      (by intro t ht; simp [initSt] at ht)
    intro t ht
    rw [wrapOut_trace, F.trace_eq, initSt_trace, List.nil_append] at ht
    obtain ⟨r, hr, hb, ho⟩ := F.rowData t ht
    rw [Nat.sub_zero] at hr
    exact ⟨r, hr, hb, ho⟩

/-- Witness for C8 at a one-row workbook whose template read fails. -/
theorem claim_C8_witness :
    (∀ m sal sig, load_html_content (.error m) sal sig =
      "Error loading HTML file: " ++ m) ∧
    (∀ t ∈ (run (baseEnv 1)).trace, ∃ r, (sampleDF 1).rows[t.idx]? = some r ∧
      t.body = load_html_content ((baseEnv 1).template t.idx) r.sal r.signatureCol ∧
      ∃ s0, t.outcome =
        (sendLoop ((baseEnv 1).attempt t.idx) r s0 (baseEnv 1).fuel 0).outcome) :=
  claim_C8 (baseEnv 1) (sampleDF 1) rfl (by decide)

/-- C9 (counterexample).  On a template with no placeholders the code
appends the HTML block `"<br><br>Thanks & Regards,<br>" ++ signature`,
not the claimed plain-text suffix with newlines. -/
theorem claim_C9_counterexample :
    load_html_content (.ok "Hello") "Jane" "Bob" =
      "Hello<br><br>Thanks & Regards,<br>Bob" ∧
    load_html_content (.ok "Hello") "Jane" "Bob" ≠
      "Hello\n\nThanks & Regards,\nBob" := by
  decide

/-- C9 (amended).  Without either placeholder the fixed `<br>` signature
block is appended; with either placeholder present both are substituted
(an absent one is left unchanged by `replace`). -/
theorem claim_C9 (tpl sal sig : String) :
    (pyIn "\x7bsal\x7d" tpl = false → pyIn "\x7bsignature\x7d" tpl = false →
      load_html_content (.ok tpl) sal sig =
        tpl ++ "<br><br>Thanks & Regards,<br>" ++ sig) ∧
    (pyIn "\x7bsal\x7d" tpl = true ∨ pyIn "\x7bsignature\x7d" tpl = true →
      load_html_content (.ok tpl) sal sig =
        (tpl.replace "\x7bsal\x7d" sal).replace "\x7bsignature\x7d" sig) := by
  constructor
  · intro h1 h2
    simp [load_html_content, h1, h2, String.append_assoc]
  · intro h
    rcases h with h | h <;> simp [load_html_content, h]

/-- Witness for C9 on both branches. -/
theorem claim_C9_witness :
    load_html_content (.ok "Hello") "Jane" "Ann" =
      "Hello" ++ "<br><br>Thanks & Regards,<br>" ++ "Ann" ∧
    load_html_content (.ok "Hi \x7bsal\x7d") "Jane" "Ann" =
      (("Hi \x7bsal\x7d").replace "\x7bsal\x7d" "Jane").replace
        "\x7bsignature\x7d" "Ann" :=
  ⟨(claim_C9 "Hello" "Jane" "Ann").1 (by decide) (by decide),
   (claim_C9 "Hi \x7bsal\x7d" "Jane" "Ann").2 (Or.inl (by decide))⟩

/-- C4 (confirmed).  While every attempt fails with the probe down, the
sub-loop keeps retrying the same record for any horizon — outcome
`hung`, sent count unchanged; when the first `k` attempts fail that way
and attempt `k` succeeds, the record is sent and the count advances by
one; and a record whose sub-loop is still retrying contributes neither a
failure entry nor a sent increment in the row step. -/
theorem claim_C4 (att : Nat → AttemptResult) (r : Record) (s0 : Nat) :
    ((∀ t, ∃ m, att t = .failure m false) →
      ∀ fuel, (sendLoop att r s0 fuel 0).outcome = .hung ∧
        (sendLoop att r s0 fuel 0).sent = s0) ∧
    (∀ k fuel, (∀ u, u < k → ∃ m, att u = .failure m false) →
      att k = .success → k < fuel →
      (sendLoop att r s0 fuel 0).outcome = .sent ∧
        (sendLoop att r s0 fuel 0).sent = s0 + 1) ∧
    (∀ (env : Env) (total i : Nat) (rrec : Record) (st : LoopSt),
      (sendLoop (env.attempt i) rrec st.sent env.fuel 0).outcome = .hung →
      (processRow env total i rrec st).1.failures = st.failures ∧
        (processRow env total i rrec st).1.sent = st.sent) := by
  refine ⟨?_, ?_, ?_⟩
  · intro h fuel
    exact sendLoop_all_netdown att r s0 h fuel 0
  · intro k fuel hpre hk hfuel
    exact sendLoop_first_success att r s0 k fuel 0
      (fun u hu => by simpa using hpre u hu)
      (by simpa using hk) hfuel
  · intro env total i rrec st h
    rw [processRow_hung_eq env total i rrec st h]
    have hs : (sendLoop (env.attempt i) rrec st.sent env.fuel 0).sent = st.sent := by
      rw [sendLoop_sent_eq, h]
      simp
    constructor
    · simp [afterSend, recordFailure, h]
    · simp [afterSend, hs]

/-- Witness for C4: one network-down failure, then success at the second
attempt. -/
theorem claim_C4_witness :
    (sendLoop cAtt sampleRow 0 2 0).outcome = .sent ∧
      (sendLoop cAtt sampleRow 0 2 0).sent = 0 + 1 :=
  (claim_C4 cAtt sampleRow 0).2.1 1 2
    (fun u hu => ⟨"connection reset", by interval_cases u; rfl⟩)
    (by decide) (by decide)

/-- C5 (counterexample).  The claim says `run` never throws for any
delay `≥ 0` and lists checkpoint-write errors among the contained
failures.  `save_checkpoint` is called with no `try` around it: in
`envNoCp` (delay `0`, one record, the send succeeds, but the checkpoint
file cannot be written) the exception escapes the loop and `finished`
is never emitted. -/
theorem claim_C5_counterexample :
    (0 : Rat) ≤ envNoCp.delay ∧
    (run envNoCp).term = RunTerm.raised "could not write checkpoint file" ∧
    Event.finished ∉ (run envNoCp).events := by
  refine ⟨le_refl 0, ?_, ?_⟩ <;> decide

/-- C5 (amended).  For `delay ≥ 0`, `run` throws no exception provided
the checkpoint file can be opened at start and checkpoint writes
succeed; every other failure (source read, missing column, render,
transport, report write) is contained.  (A checkpoint `open`/write
failure does escape, which is what the counterexample shows.) -/
theorem claim_C5 (env : Env) (hcp : env.cp0 ≠ .unopenable)
    (hw : env.cpWritable = true) (hdelay : 0 ≤ env.delay) :
    ∀ m, (run env).term ≠ RunTerm.raised m := by
  intro m
  cases Hex : env.excel with
  | error e =>
    intro hterm
    simp only [run, Hex] at hterm
    exact absurd hterm (by simp)
  | ok df =>
    cases Hsc : required_columns.find? (fun col => !(df.columns.contains col)) with
    | some col =>
      intro hterm
      simp only [run, Hex, Hsc] at hterm
      exact absurd hterm (by simp)
    | none =>
      have hok : ∃ c, load_checkpoint env.cp0 = .ok c := by
        cases hc : env.cp0 with
        | absent => exact ⟨0, rfl⟩
        | unopenable => exact absurd hc hcp
        | readFails => exact ⟨0, rfl⟩
        | content s => exact ⟨_, rfl⟩
      obtain ⟨c, Hcp⟩ := hok
      rw [run_eq env df c Hex Hsc Hcp]
      obtain ⟨dt, de, dfl, dw, F⟩ := rowsLoop_master env df.rows.length c
        df.rows 0 (initSt env df.rows.length c)
        (by intro t ht; simp [initSt] at ht)
      intro hterm
      rw [wrapOut_term_raised] at hterm
      exact F.no_raise hw hdelay m hterm

/-- Witness for C5 at the benign one-row environment. -/
theorem claim_C5_witness :
    (run (baseEnv 1)).term ≠ RunTerm.raised "could not write checkpoint file" :=
  claim_C5 (baseEnv 1) (by decide) rfl (le_refl 0)
    "could not write checkpoint file"

/-- C7 (counterexample).  The claim says progress is
`round(100 * (index + 1) / total)`.  The code computes
`int(((index + 1) / total) * 100)`, which truncates: with three records,
after the second one the engine emits 66 (never 67), while the claimed
rounding of `200/3` is 67. -/
theorem claim_C7_counterexample :
    Event.progress 66 ∈ (run (baseEnv 3)).events ∧
    Event.progress 67 ∉ (run (baseEnv 3)).events ∧
    round ((100 * (2 : ℚ)) / 3) = 67 := by
  refine ⟨by decide, by decide, ?_⟩
  norm_num [round_eq]

/-- C7 (amended).  After every finalized record at index `i` (with the
checkpoint writable, else the run dies at the preceding save), the run's
events contain the progress value `⌊100 * (i + 1) / total⌋` — the
`int()` truncation, which matches `round` only when the fractional part
is below one half. -/
theorem claim_C7 (env : Env) (df : DataFrame)
    (Hex : env.excel = .ok df)
    (Hsc : required_columns.find? (fun col => !(df.columns.contains col)) = none)
    (Hw : env.cpWritable = true) :
    ∀ t ∈ (run env).trace, t.outcome ≠ .hung →
      Event.progress (100 * (t.idx + 1) / df.rows.length) ∈ (run env).events := by
  cases hcp : load_checkpoint env.cp0 with
  | error m =>
    intro t ht
    rw [run_load_error env df m Hex Hsc hcp] at ht
    simp at ht
  | ok c =>
    rw [run_eq env df c Hex Hsc hcp]
    obtain ⟨dt, de, dfl, dw, F⟩ := rowsLoop_master env df.rows.length c
      df.rows 0 (initSt env df.rows.length c)
      (by intro t ht; simp [initSt] at ht)
    intro t ht hne
    rw [wrapOut_trace, F.trace_eq, initSt_trace, List.nil_append] at ht
    obtain ⟨hpe, _⟩ := F.prog_writes Hw t ht hne
    apply wrapOut_events_mem
    rw [F.events_eq]
    exact List.mem_append.mpr (Or.inr hpe)

/-- Witness for C7: the single record of `baseEnv 1` yields progress
`⌊100 * 1 / 1⌋ = 100` among the events. -/
theorem claim_C7_witness :
    Event.progress (100 * (0 + 1) / (sampleDF 1).rows.length) ∈
      (run (baseEnv 1)).events :=
  claim_C7 (baseEnv 1) (sampleDF 1) rfl (by decide) rfl
    ⟨0, load_html_content (.ok "Hello") "Alice" "Bob", .sent⟩
    (by decide) (by decide)

/-- C10 (confirmed).  A loaded checkpoint at or past the record count
makes the run process nothing: the observable result is exactly the
total-contacts event, the resuming notice, the final log and the single
`finished` — no send, no progress or sent-count event, no failure
report, no checkpoint write. -/
theorem claim_C10 (env : Env) (df : DataFrame) (c : Int)
    (Hex : env.excel = .ok df)
    (Hsc : required_columns.find? (fun col => !(df.columns.contains col)) = none)
    (Hcp : load_checkpoint env.cp0 = .ok c)
    (Hge : (df.rows.length : Int) ≤ c) :
    run env = ⟨[Event.totalContacts df.rows.length,
        Event.log ("Resuming from row " ++ intStr c),
        Event.log "Finished sending emails.\n", Event.finished],
      0, [], [], [], env.cp0, .finishedRun false⟩ :=
  run_skip_all env df c Hex Hsc Hcp Hge

/-- Witness for C10: two records, checkpoint file reading `5`. -/
theorem claim_C10_witness :
    run envSkip = ⟨[Event.totalContacts (sampleDF 2).rows.length,
        Event.log ("Resuming from row " ++ intStr 5),
        Event.log "Finished sending emails.\n", Event.finished],
      0, [], [], [], envSkip.cp0, .finishedRun false⟩ :=
  claim_C10 envSkip (sampleDF 2) 5 rfl (by decide) (by decide) (by decide)

/-- C1 (confirmed).  In every run over a readable, schema-valid source:
`sent_count + len(failed_emails)` never exceeds the record count; it
equals the record count exactly when every record was finalized and the
loop was not left by cancellation; and it always equals the number of
finalized trace entries — each processed record contributes to exactly
one of the two counts. -/
theorem claim_C1 (env : Env) (df : DataFrame)
    (Hex : env.excel = .ok df)
    (Hsc : required_columns.find? (fun col => !(df.columns.contains col)) = none) :
    (run env).sent + (run env).failures.length ≤ df.rows.length ∧
    ((run env).sent + (run env).failures.length = df.rows.length ↔
      ((∀ k, k < df.rows.length → FinalizedAt (run env).trace k) ∧
        (run env).term ≠ RunTerm.finishedRun true)) ∧
    (run env).sent + (run env).failures.length = countFinal (run env).trace := by
  cases hcp : load_checkpoint env.cp0 with
  | error m =>
    rw [run_load_error env df m Hex Hsc hcp]
    refine ⟨by simp, ?_, by simp [countFinal_nil]⟩
    constructor
    · intro h
      have h' : df.rows.length = 0 := by simpa using h.symm
      exact ⟨fun k hk => absurd hk (by omega), by simp⟩
    · rintro ⟨hall, _⟩
      show (0 : Nat) + (List.length ([] : List FailureEntry)) = df.rows.length
      simp only [List.length_nil, Nat.add_zero]
      by_contra hne
      obtain ⟨t, ht, _, _⟩ := hall 0 (by omega)
      simp at ht
  | ok c =>
    rw [run_eq env df c Hex Hsc hcp]
    set out := rowsLoop env df.rows.length c 0 df.rows
      (initSt env df.rows.length c) with hout
    obtain ⟨dt, de, dfl, dw, F⟩ := rowsLoop_master env df.rows.length c
      df.rows 0 (initSt env df.rows.length c)
      (by intro t ht; simp [initSt] at ht)
    have hscore : out.st.sent + out.st.failures.length = countFinal dt := by
      have h := F.score_eq
      simpa [score, initSt] using h
    have htr : out.st.trace = dt := by
      have h := F.trace_eq
      simpa [initSt] using h
    refine ⟨?_, ?_, ?_⟩
    · rw [wrapOut_sent, wrapOut_failures, hscore]
      exact le_trans (countFinal_le dt) F.len_le
    · rw [wrapOut_sent, wrapOut_failures, hscore, wrapOut_trace, htr]
      constructor
      · intro h
        obtain ⟨hall, hkind⟩ := F.full_iff.mp h
        refine ⟨fun k hk => ?_, ?_⟩
        · have hf := hall k (by omega) (by omega)
          simpa [initSt] using hf
        · intro hterm
          rw [wrapOut_term_cancel] at hterm
          exact hkind hterm
      · rintro ⟨hall, hterm⟩
        apply F.full_iff.mpr
        refine ⟨fun k hk1 hk2 => ?_, ?_⟩
        · have hf := hall k (by omega)
          simpa [initSt] using hf
        · intro hkind
          exact hterm ((wrapOut_term_cancel env out).mpr hkind)
    · rw [wrapOut_sent, wrapOut_failures, hscore, wrapOut_trace, htr]

/-- Witness for C1 at the benign one-row environment. -/
theorem claim_C1_witness :
    (run (baseEnv 1)).sent + (run (baseEnv 1)).failures.length ≤
      (sampleDF 1).rows.length ∧
    ((run (baseEnv 1)).sent + (run (baseEnv 1)).failures.length =
        (sampleDF 1).rows.length ↔
      ((∀ k, k < (sampleDF 1).rows.length →
          FinalizedAt (run (baseEnv 1)).trace k) ∧
        (run (baseEnv 1)).term ≠ RunTerm.finishedRun true)) ∧
    (run (baseEnv 1)).sent + (run (baseEnv 1)).failures.length =
      countFinal (run (baseEnv 1)).trace :=
  claim_C1 (baseEnv 1) (sampleDF 1) rfl (by decide)

theorem getLast?_mem_of_eq {l : List Nat} {w : Nat}
    (h : l.getLast? = some w) : w ∈ l := by
  obtain ⟨hne, heq⟩ :=
    List.mem_getLast?_eq_getLast (show w ∈ l.getLast? from h)
  rw [heq]
  exact List.getLast_mem hne

/-- A run whose loaded checkpoint is `w` touches no record below `w`. -/
theorem run_no_reprocess (env2 : Env) (w k : Nat)
    (Hcp2 : load_checkpoint env2.cp0 = .ok (w : Int)) (hkw : k + 1 ≤ w) :
    ∀ t ∈ (run env2).trace, t.idx ≠ k := by
  intro t ht hidx
  have hge := run_trace_ge env2 (w : Int) Hcp2 t ht
  omega

/-- C2 (confirmed).  (a) Every record whose index is below the loaded
checkpoint is skipped with no side effects: it never appears in the
trace (no render, no send attempt, no failure entry) and no checkpoint
write `k + 1` happens for it.  (b) After a run that finished normally
having finalized every record, restarting with the persisted checkpoint
file sends zero messages, records nothing, writes nothing and finishes
immediately. -/
theorem claim_C2 (env : Env) (df : DataFrame) (c : Int)
    (Hex : env.excel = .ok df)
    (Hsc : required_columns.find? (fun col => !(df.columns.contains col)) = none)
    (Hcp : load_checkpoint env.cp0 = .ok c) :
    (∀ k : Nat, (k : Int) < c →
      (∀ t ∈ (run env).trace, t.idx ≠ k) ∧ ((k + 1) ∉ (run env).cpWrites)) ∧
    ((run env).term = RunTerm.finishedRun false →
      (run env).sent + (run env).failures.length = df.rows.length →
      (run { env with cp0 := (run env).cpFinal }).sent = 0 ∧
      (run { env with cp0 := (run env).cpFinal }).failures = [] ∧
      (run { env with cp0 := (run env).cpFinal }).trace = [] ∧
      (run { env with cp0 := (run env).cpFinal }).cpWrites = [] ∧
      (run { env with cp0 := (run env).cpFinal }).term =
        RunTerm.finishedRun false) := by
  rw [run_eq env df c Hex Hsc Hcp]
  set out := rowsLoop env df.rows.length c 0 df.rows
    (initSt env df.rows.length c) with hout
  obtain ⟨dt, de, dfl, dw, F⟩ := rowsLoop_master env df.rows.length c
    df.rows 0 (initSt env df.rows.length c)
    (by intro t ht; simp [initSt] at ht)
  have htr : out.st.trace = dt := by
    have h := F.trace_eq
    simpa [initSt] using h
  have hwr : out.st.cpWrites = dw := by
    have h := F.writes_eq
    simpa [initSt] using h
  have hcpf : out.st.cp = dw.foldl cpFold env.cp0 := by
    have h := F.cp_eq
    simpa [initSt] using h
  have hscore : out.st.sent + out.st.failures.length = countFinal dt := by
    have h := F.score_eq
    simpa [score, initSt] using h
  constructor
  · intro k hk
    constructor
    · intro t ht hidx
      rw [wrapOut_trace, htr] at ht
      have hb := (F.bounds t ht).2.2.1
      omega
    · intro hmem
      rw [wrapOut_cpWrites, hwr] at hmem
      obtain ⟨_, t, ht, hne, heq⟩ := F.writes_src (k + 1) hmem
      have hb := (F.bounds t ht).2.2.1
      omega
  · intro Hterm Hall
    rw [wrapOut_sent, wrapOut_failures, hscore] at Hall
    have hkind : out.kind = .normal := (wrapOut_term_normal env out).mp Hterm
    rcases Nat.eq_zero_or_pos df.rows.length with h0 | hpos
    · have hdt : dt = [] := List.eq_nil_of_length_eq_zero (by
        have := F.len_le
        omega)
      have hdw : dw = [] := by
        rcases hdweq : dw with _ | ⟨w, l⟩
        · rfl
        · obtain ⟨_, t, ht, _, _⟩ :=
            F.writes_src w (by rw [hdweq]; exact List.mem_cons_self _ _)
          rw [hdt] at ht
          simp at ht
      have hcpeq : (wrapOut env out).cpFinal = env.cp0 := by
        rw [wrapOut_cpFinal, hcpf, hdw]
        rfl
      rw [hcpeq]
      have henv : ({ env with cp0 := env.cp0 } : Env) = env := rfl
      rw [henv, run_eq env df c Hex Hsc Hcp, ← hout]
      have hsum : out.st.sent + out.st.failures.length = 0 := by
        rw [hscore, hdt]
        rfl
      refine ⟨?_, ?_, ?_, ?_, ?_⟩
      · rw [wrapOut_sent]; omega
      · rw [wrapOut_failures]
        exact List.length_eq_zero.mp (by omega)
      · rw [wrapOut_trace, htr, hdt]
      · rw [wrapOut_cpWrites, hwr, hdw]
      · exact Hterm
    · obtain ⟨hall, _⟩ := F.full_iff.mp Hall
      have hfin : FinalizedAt dt (df.rows.length - 1) := by
        have h := hall (df.rows.length - 1) (by omega) (by omega)
        simpa [initSt] using h
      obtain ⟨t, ht, hidx, hne⟩ := hfin
      rcases Bool.eq_false_or_eq_true env.cpWritable with hwv | hwv
      case inl =>
        have hmemw : df.rows.length ∈ dw := by
          have h2 := (F.prog_writes hwv t ht hne).2
          rw [hidx, show df.rows.length - 1 + 1 = df.rows.length from by omega]
            at h2
          exact h2
        have hnedw : dw ≠ [] := fun h => by rw [h] at hmemw; simp at hmemw
        obtain ⟨w, hlast⟩ := getLast?_isSome_of_ne_nil hnedw
        have hwle : w = df.rows.length := by
          have hle1 : df.rows.length ≤ w :=
            pairwise_le_getLast dw F.writes_sorted _ hmemw w hlast
          obtain ⟨_, t', ht', _, heq'⟩ :=
            F.writes_src w (getLast?_mem_of_eq hlast)
          have hb := (F.bounds t' ht').2.1
          omega
        have hcpfinal : (wrapOut env out).cpFinal =
            .content (natStr df.rows.length) := by
          rw [wrapOut_cpFinal, hcpf, cpFold_getLast dw env.cp0 w hlast, hwle]
        rw [hcpfinal]
        rw [run_skip_all { env with cp0 := .content (natStr df.rows.length) }
          df (df.rows.length : Int) Hex Hsc
          (load_checkpoint_natStr df.rows.length) (le_refl _)]
        exact ⟨rfl, rfl, rfl, rfl, rfl⟩
      case inr =>
        obtain ⟨m, hm⟩ := F.ro_raise hwv t ht hne
        rw [hkind] at hm
        simp at hm

/-- Witness for C2: run the benign one-row environment to completion,
then restart with its persisted checkpoint. -/
theorem claim_C2_witness :
    (run { baseEnv 1 with cp0 := (run (baseEnv 1)).cpFinal }).sent = 0 ∧
    (run { baseEnv 1 with cp0 := (run (baseEnv 1)).cpFinal }).failures = [] ∧
    (run { baseEnv 1 with cp0 := (run (baseEnv 1)).cpFinal }).trace = [] ∧
    (run { baseEnv 1 with cp0 := (run (baseEnv 1)).cpFinal }).cpWrites = [] ∧
    (run { baseEnv 1 with cp0 := (run (baseEnv 1)).cpFinal }).term =
      RunTerm.finishedRun false :=
  (claim_C2 (baseEnv 1) (sampleDF 1) 0 rfl (by decide) (by decide)).2
    (by decide) (by decide)

/-- C3 (confirmed).  With the checkpoint file writable: every finalized
record `k` has its write `k + 1` among the checkpoint writes; the writes
are strictly increasing (each record's write happens before any later
record is touched); after the run, the persisted checkpoint loads as a
value `w ≥ k + 1` for every finalized `k`; and a restart with that
persisted checkpoint never reprocesses record `k`. -/
theorem claim_C3 (env : Env) (Hw : env.cpWritable = true) :
    (∀ k, FinalizedAt (run env).trace k → (k + 1) ∈ (run env).cpWrites) ∧
    List.Pairwise (· < ·) (run env).cpWrites ∧
    (∀ k, FinalizedAt (run env).trace k →
      ∃ w : Nat, load_checkpoint (run env).cpFinal = .ok (w : Int) ∧
        k + 1 ≤ w) ∧
    (∀ k, FinalizedAt (run env).trace k →
      ∀ t ∈ (run { env with cp0 := (run env).cpFinal }).trace, t.idx ≠ k) := by
  cases Hex : env.excel with
  | error e =>
    have hrun : run env = ⟨[.log ("Error reading Excel file: " ++ e),
        .finished], 0, [], [], [], env.cp0, .finishedRun false⟩ := by
      simp only [run, Hex]
    rw [hrun]
    refine ⟨?_, by simp, ?_, ?_⟩ <;>
      (intro k hf; obtain ⟨t, ht, _, _⟩ := hf; simp at ht)
  | ok df =>
    cases Hsc : required_columns.find? (fun col => !(df.columns.contains col)) with
    | some col =>
      have hrun : run env = ⟨[.log ("Missing required column: " ++ col),
          .finished], 0, [], [], [], env.cp0, .finishedRun false⟩ := by
        simp only [run, Hex, Hsc]
      rw [hrun]
      refine ⟨?_, by simp, ?_, ?_⟩ <;>
        (intro k hf; obtain ⟨t, ht, _, _⟩ := hf; simp at ht)
    | none =>
      cases hcp : load_checkpoint env.cp0 with
      | error m =>
        rw [run_load_error env df m Hex Hsc hcp]
        refine ⟨?_, by simp, ?_, ?_⟩ <;>
          (intro k hf; obtain ⟨t, ht, _, _⟩ := hf; simp at ht)
      | ok c =>
        rw [run_eq env df c Hex Hsc hcp]
        set out := rowsLoop env df.rows.length c 0 df.rows
          (initSt env df.rows.length c) with hout
        obtain ⟨dt, de, dfl, dw, F⟩ := rowsLoop_master env df.rows.length c
          df.rows 0 (initSt env df.rows.length c)
          (by intro t ht; simp [initSt] at ht)
        have htr : out.st.trace = dt := by
          have h := F.trace_eq
          simpa [initSt] using h
        have hwr : out.st.cpWrites = dw := by
          have h := F.writes_eq
          simpa [initSt] using h
        have hcpf : out.st.cp = dw.foldl cpFold env.cp0 := by
          have h := F.cp_eq
          simpa [initSt] using h
        have hmemw : ∀ k, FinalizedAt dt k → (k + 1) ∈ dw := by
          intro k hf
          obtain ⟨t, ht, hidx, hne⟩ := hf
          have h2 := (F.prog_writes Hw t ht hne).2
          rw [hidx] at h2
          exact h2
        have hfinw : ∀ k, FinalizedAt dt k →
            ∃ w : Nat, load_checkpoint out.st.cp = .ok (w : Int) ∧
              k + 1 ≤ w := by
          intro k hf
          have hkw := hmemw k hf
          have hnedw : dw ≠ [] := fun h => by rw [h] at hkw; simp at hkw
          obtain ⟨w, hlast⟩ := getLast?_isSome_of_ne_nil hnedw
          refine ⟨w, ?_, ?_⟩
          · rw [hcpf, cpFold_getLast dw env.cp0 w hlast]
            exact load_checkpoint_natStr w
          · exact pairwise_le_getLast dw F.writes_sorted (k + 1) hkw w hlast
        refine ⟨?_, ?_, ?_, ?_⟩
        · intro k hf
          rw [wrapOut_trace, htr] at hf
          rw [wrapOut_cpWrites, hwr]
          exact hmemw k hf
        · rw [wrapOut_cpWrites, hwr]
          exact F.writes_sorted
        · intro k hf
          rw [wrapOut_trace, htr] at hf
          rw [wrapOut_cpFinal]
          exact hfinw k hf
        · intro k hf t ht hidx
          rw [wrapOut_trace, htr] at hf
          obtain ⟨w, hload, hkw⟩ := hfinw k hf
          refine run_no_reprocess _ w k ?_ hkw t ht hidx
          show load_checkpoint ((wrapOut env out).cpFinal) = .ok (w : Int)
          rw [wrapOut_cpFinal]
          exact hload

/-- Witness for C3 at the benign one-row environment: record `0` is
finalized, its write `1` is present, and the writes are sorted. -/
theorem claim_C3_witness :
    (0 + 1) ∈ (run (baseEnv 1)).cpWrites ∧
    List.Pairwise (· < ·) (run (baseEnv 1)).cpWrites :=
  ⟨(claim_C3 (baseEnv 1) rfl).1 0 (by decide),
   (claim_C3 (baseEnv 1) rfl).2.1⟩
